import Mathlib

/-!
Verification of the spike-train extraction and query engine of
`src/nrv/CL_postprocessing.py` against its natural-language specification.

Scalars (times, voltages, coordinates) are modelled as rationals; numpy
arrays as Lean lists (or total index functions where the code never goes
out of bounds); fallible operations (out-of-bounds reads, numpy reductions
over empty arrays, IEEE division by zero) return `Option` or an explicit
result type.
-/

namespace NRV

/-- Python `int()` applied to a rational: truncation toward zero. -/
def pyInt (q : ℚ) : ℤ := if 0 ≤ q then ⌊q⌋ else ⌈q⌉

/-!
## Spike Detector (`spike_detection`, lines 226-249)

The inner loop of `spike_detection`, for one row `i` of the voltage
matrix.  `V` is the row (total function on sample indices; the code is
also embedded with bounds-checked reads below, see `scanRowSafe`).  The
scan follows the source: for each sample index `j` of the scan list, a
spike is recorded iff `V[j] <= thr`, `V[j+1] >= thr`,
`V[min(j + int(t_min_spike*(1/dt)), t_stop)] >= thr`, and
`j*dt - t_last_spike > t_refractory`; on acceptance `t_last_spike`
becomes `j*dt`.
-/
def scanRow (V : ℕ → ℚ) (thr dt t_min_spike t_refractory : ℚ) (t_stop : ℕ) :
    List ℕ → ℚ → List ℕ
  | [], _ => []
  | j :: js, t_last =>
    if V j ≤ thr ∧ thr ≤ V (j + 1) ∧
        thr ≤ V (Int.toNat (min ((j : ℤ) + pyInt (t_min_spike * (1 / dt))) (t_stop : ℤ))) ∧
        t_refractory < (j : ℚ) * dt - t_last then
      j :: scanRow V thr dt t_min_spike t_refractory t_stop js ((j : ℚ) * dt)
    else
      scanRow V thr dt t_min_spike t_refractory t_stop js t_last

/-- Scan start index of the source: `int(t_start*(1/dt))`.  Negative
starts (possible only for `t_start < 0`, which numpy would treat as
wrap-around indexing) are clamped to `0` and are outside the model. -/
def scanStart (t_start dt : ℚ) : ℕ := (pyInt (t_start * (1 / dt))).toNat

/-- Sample indices scanned by the source: `range(int(t_start*(1/dt)), t_stop)`. -/
def rowIdxs (t_start dt : ℚ) (t_stop : ℕ) : List ℕ :=
  List.range' (scanStart t_start dt) (t_stop - scanStart t_start dt)

/-- Embedding of `spike_detection` (lines 226-249).  The four parallel
output arrays `raster_position`, `raster_x_position`,
`raster_time_index`, `raster_time` are modelled as a single list of
quadruples `(i, x[i], j, t[j])`; `t_last_spike` starts at
`t_start - t_refractory` for every row. -/
def spike_detection (Voltage : ℕ → ℕ → ℚ) (t x : ℕ → ℚ) (list_to_parse : List ℕ)
    (thr dt t_start : ℚ) (t_stop : ℕ) (t_refractory t_min_spike : ℚ) :
    List (ℕ × ℚ × ℕ × ℚ) :=
  list_to_parse.flatMap fun i =>
    (scanRow (Voltage i) thr dt t_min_spike t_refractory t_stop
        (rowIdxs t_start dt t_stop) (t_start - t_refractory)).map
      fun j => (i, x i, j, t j)

/-- Row scan as worded by the spec sentence of claim C1: identical to
`scanRow` except that the minimum-duration offset is
`round(t_min_spike/dt)` instead of the source's truncation. -/
def scanRowSpec (V : ℕ → ℚ) (thr dt t_min_spike t_refractory : ℚ) (t_stop : ℕ) :
    List ℕ → ℚ → List ℕ
  | [], _ => []
  | j :: js, t_last =>
    if V j ≤ thr ∧ thr ≤ V (j + 1) ∧
        thr ≤ V (Int.toNat (min ((j : ℤ) + round (t_min_spike / dt)) (t_stop : ℤ))) ∧
        t_refractory < (j : ℚ) * dt - t_last then
      j :: scanRowSpec V thr dt t_min_spike t_refractory t_stop js ((j : ℚ) * dt)
    else
      scanRowSpec V thr dt t_min_spike t_refractory t_stop js t_last

/-- Scan indices as worded by the spec: from `round(t_start/dt)` to `t_stop - 1`. -/
def rowIdxsSpec (t_start dt : ℚ) (t_stop : ℕ) : List ℕ :=
  List.range' (round (t_start / dt)).toNat (t_stop - (round (t_start / dt)).toNat)

/-- Spike detector as worded by claim C1 (both occurrences of `round`). -/
def spike_detectionSpec (Voltage : ℕ → ℕ → ℚ) (t x : ℕ → ℚ) (list_to_parse : List ℕ)
    (thr dt t_start : ℚ) (t_stop : ℕ) (t_refractory t_min_spike : ℚ) :
    List (ℕ × ℚ × ℕ × ℚ) :=
  list_to_parse.flatMap fun i =>
    (scanRowSpec (Voltage i) thr dt t_min_spike t_refractory t_stop
        (rowIdxsSpec t_start dt t_stop) (t_start - t_refractory)).map
      fun j => (i, x i, j, t j)

/-- Row scan as worded by the amended claim C1: scan start still
`round(t_start/dt)`, but the minimum-duration offset is the source's
`int(t_min_spike/dt)` (truncation toward zero). -/
def scanRowAmended (V : ℕ → ℚ) (thr dt t_min_spike t_refractory : ℚ) (t_stop : ℕ) :
    List ℕ → ℚ → List ℕ
  | [], _ => []
  | j :: js, t_last =>
    if V j ≤ thr ∧ thr ≤ V (j + 1) ∧
        thr ≤ V (Int.toNat (min ((j : ℤ) + pyInt (t_min_spike / dt)) (t_stop : ℤ))) ∧
        t_refractory < (j : ℚ) * dt - t_last then
      j :: scanRowAmended V thr dt t_min_spike t_refractory t_stop js ((j : ℚ) * dt)
    else
      scanRowAmended V thr dt t_min_spike t_refractory t_stop js t_last

/-- Spike detector as worded by the amended claim C1. -/
def spike_detectionAmended (Voltage : ℕ → ℕ → ℚ) (t x : ℕ → ℚ) (list_to_parse : List ℕ)
    (thr dt t_start : ℚ) (t_stop : ℕ) (t_refractory t_min_spike : ℚ) :
    List (ℕ × ℚ × ℕ × ℚ) :=
  list_to_parse.flatMap fun i =>
    (scanRowAmended (Voltage i) thr dt t_min_spike t_refractory t_stop
        (rowIdxsSpec t_start dt t_stop) (t_start - t_refractory)).map
      fun j => (i, x i, j, t j)

/-- Voltage matrix of the C1 counterexample: a single row
`[-1, -1, 1, 1, -5, -5]` (out-of-range samples read `-5`). -/
def c1V : ℕ → ℕ → ℚ := fun _ j => ([-1, -1, 1, 1, -5, -5] : List ℚ).getD j (-5)

/-- Sample times of the C1 counterexample (0.1 ms steps). -/
def c1T : ℕ → ℚ := fun j => (j : ℚ) * (1 / 10)

/-- Coordinates of the C1 counterexample. -/
def c1X : ℕ → ℚ := fun _ => 7

/-- Voltage matrix of the C2 witness: one row with a threshold crossing. -/
def c2V : ℕ → ℕ → ℚ := fun _ j => ([-1, -1, 1, 1, 1, 1] : List ℚ).getD j (-5)

/-- Sample times of the C2 witness (0.1 ms steps). -/
def c2T : ℕ → ℚ := fun j => (j : ℚ) * (1 / 10)

/-- Coordinates of the C2 witness. -/
def c2X : ℕ → ℚ := fun _ => 3

/-!
## Bounds-checked detector (for claim C10)

A second embedding of the detector with bounds-checked reads: rows of
the voltage matrix, the time vector and the coordinate vector are lists
and every access goes through `List.get?`, so `none` models an
out-of-bounds read.
-/

/-- Bounds-checked row scan.  Reads happen in the source's short-circuit
order: `Voltage[i][j]`, then `Voltage[i][j+1]`, then the
minimum-duration sample, each only if the previous test passed. -/
def scanRowSafe (V : List ℚ) (thr dt t_min_spike t_refractory : ℚ) (t_stop : ℕ) :
    List ℕ → ℚ → Option (List ℕ)
  | [], _ => some []
  | j :: js, t_last => do
    let vj ← V.get? j
    if vj ≤ thr then
      let vj1 ← V.get? (j + 1)
      if thr ≤ vj1 then
        let vd ← V.get? (Int.toNat (min ((j : ℤ) + pyInt (t_min_spike * (1 / dt))) (t_stop : ℤ)))
        if thr ≤ vd then
          if t_refractory < (j : ℚ) * dt - t_last then
            (scanRowSafe V thr dt t_min_spike t_refractory t_stop js ((j : ℚ) * dt)).map (j :: ·)
          else
            scanRowSafe V thr dt t_min_spike t_refractory t_stop js t_last
        else scanRowSafe V thr dt t_min_spike t_refractory t_stop js t_last
      else scanRowSafe V thr dt t_min_spike t_refractory t_stop js t_last
    else scanRowSafe V thr dt t_min_spike t_refractory t_stop js t_last

/-- Bounds-checked construction of the quadruples appended for one row:
`x[i]` and `t[j]` are read only for accepted sample indices `j`. -/
def entriesSafe (x t : List ℚ) (i : ℕ) : List ℕ → Option (List (ℕ × ℚ × ℕ × ℚ))
  | [] => some []
  | j :: js => do
    let xi ← x.get? i
    let tj ← t.get? j
    let rest ← entriesSafe x t i js
    pure ((i, xi, j, tj) :: rest)

/-- Bounds-checked spike detector, by recursion over the scan list. -/
def rowsSafe (Voltage : List (List ℚ)) (t x : List ℚ)
    (thr dt t_start : ℚ) (t_stop : ℕ) (t_refractory t_min_spike : ℚ) :
    List ℕ → Option (List (ℕ × ℚ × ℕ × ℚ))
  | [] => some []
  | i :: lst => do
    let row ← Voltage.get? i
    let js ← scanRowSafe row thr dt t_min_spike t_refractory t_stop
      (rowIdxs t_start dt t_stop) (t_start - t_refractory)
    let entries ← entriesSafe x t i js
    let rest ← rowsSafe Voltage t x thr dt t_start t_stop t_refractory t_min_spike lst
    pure (entries ++ rest)

/-- Embedding of `spike_detection` with bounds-checked array reads. -/
def spike_detectionSafe (Voltage : List (List ℚ)) (t x : List ℚ) (list_to_parse : List ℕ)
    (thr dt t_start : ℚ) (t_stop : ℕ) (t_refractory t_min_spike : ℚ) :
    Option (List (ℕ × ℚ × ℕ × ℚ)) :=
  rowsSafe Voltage t x thr dt t_start t_stop t_refractory t_min_spike list_to_parse

/-!
## Numpy and Python primitives used by the query engine
-/

/-- Indices of the elements of `xs` satisfying `p` (`np.where` on a one
dimensional array). -/
def npWhere (p : ℚ → Bool) (xs : List ℚ) : List ℕ :=
  (List.range xs.length).filter fun i => p (xs.getD i 0)

/-- Fancy indexing `xs[idx]` for index lists known to be in range. -/
def npTake (xs : List ℚ) (idx : List ℕ) : List ℚ := idx.map fun i => xs.getD i 0

/-- Fancy indexing with bounds checking: numpy raises IndexError on an
out-of-range index, modelled by `none`. -/
def npTakeChecked (xs : List ℚ) (idx : List ℕ) : Option (List ℚ) := idx.mapM xs.get?

/-- Intersection of two sorted duplicate-free index lists, as produced
by `np.where` (`np.intersect1d`). -/
def intersect1d (a b : List ℕ) : List ℕ := a.filter fun i => decide (i ∈ b)

/-- Minimum of a list (`np.amin`; callers model numpy's ValueError on an
empty array separately). -/
def amin : List ℚ → ℚ
  | [] => 0
  | h :: t => t.foldl min h

/-- Maximum of a list (`np.amax`; callers model numpy's ValueError on an
empty array separately). -/
def amax : List ℚ → ℚ
  | [] => 0
  | h :: t => t.foldl max h

/-- Python's `min` builtin, which raises on an empty sequence. -/
def pymin : List ℚ → Option ℚ
  | [] => none
  | h :: t => some (t.foldl min h)

/-- Python's `max` builtin, which raises on an empty sequence. -/
def pymax : List ℚ → Option ℚ
  | [] => none
  | h :: t => some (t.foldl max h)

/-- Index of the first maximal element (`np.argmax`). -/
def argmaxQ (xs : List ℚ) : ℕ := (npWhere (fun v => decide (v = amax xs)) xs).headD 0

/-- Index of the first minimal element (`np.argmin`). -/
def argminQ (xs : List ℚ) : ℕ := (npWhere (fun v => decide (v = amin xs)) xs).headD 0

/-!
## Origin query (`find_spike_origin`, lines 292-313; claim C3)
-/

/-- Embedding of `find_spike_origin` on the two raster arrays it reads
(`*_time` and `*_x_position`), after key-prefix resolution and the
`t_stop` default; returns `none` when `np.amin` is reached with an empty
array (ValueError in numpy). -/
def find_spike_origin (times xpos : List ℚ) (t_start t_stop : ℚ)
    (x_min x_max : Option ℚ) : Option (List ℚ × List ℚ) :=
  let sup_indexes := npWhere (fun v => decide (t_start < v)) times
  let inf_indexes := npWhere (fun v => decide (v < t_stop)) times
  let good_indexes := intersect1d sup_indexes inf_indexes
  let good_spike_times := npTake times good_indexes
  let good_spike_positions := npTake xpos good_indexes
  let sup_xmin_indexes :=
    match x_min with
    | some v => npWhere (fun p => decide (v < p)) good_spike_positions
    | none => List.range good_spike_positions.length
  let inf_xmax_indexes :=
    match x_max with
    | some v => npWhere (fun p => decide (p < v)) good_spike_positions
    | none => List.range good_spike_positions.length
  let good_x_indexes := intersect1d sup_xmin_indexes inf_xmax_indexes
  let considered_spike_times := npTake good_spike_times good_x_indexes
  let considered_spike_positions := npTake good_spike_positions good_x_indexes
  if considered_spike_times.isEmpty then none
  else
    let start_index := npWhere (fun v => decide (v = amin considered_spike_times))
      considered_spike_times
    some (npTake considered_spike_times start_index,
      npTake considered_spike_positions start_index)

/-- Lower coordinate bound test of the origin query: an unset bound is
unbounded. -/
def xMinOk (x_min : Option ℚ) (p : ℚ) : Bool :=
  match x_min with
  | some v => decide (v < p)
  | none => true

/-- Upper coordinate bound test of the origin query: an unset bound is
unbounded. -/
def xMaxOk (x_max : Option ℚ) (p : ℚ) : Bool :=
  match x_max with
  | some v => decide (p < v)
  | none => true

/-- Window test of claim C3 on an event `(time, x)`: time strictly
inside the time window, coordinate inside the optional bounds. -/
def inOriginWindow (t_start t_stop : ℚ) (x_min x_max : Option ℚ) (e : ℚ × ℚ) : Bool :=
  decide (t_start < e.1) && decide (e.1 < t_stop) && xMinOk x_min e.2 && xMaxOk x_max e.2

/-- Origin query as worded by claim C3, on a list of `(time, x)` events:
the windowed events whose time is the minimum time of the windowed
subset, all ties included. -/
def originCore (es : List (ℚ × ℚ)) (t_start t_stop : ℚ) (x_min x_max : Option ℚ) :
    List (ℚ × ℚ) :=
  let filtered := es.filter (inOriginWindow t_start t_stop x_min x_max)
  filtered.filter fun e => decide (e.1 = amin (filtered.map Prod.fst))

/-- Origin query as worded by claim C3 on the two raster arrays. -/
def find_spike_originSpec (times xpos : List ℚ) (t_start t_stop : ℚ)
    (x_min x_max : Option ℚ) : List (ℚ × ℚ) :=
  originCore (times.zip xpos) t_start t_stop x_min x_max

/-!
## Last-occurrence query, both-directions branch
(`find_spike_last_occurance`, lines 384-398; claim C4)
-/

/-- Embedding of the final `else` branch of `find_spike_last_occurance`
(any direction other than `up` and `down`).  After filtering to the time
window and partitioning around `x_start`, the source computes both
partition extrema but builds the result as
`np.asarray([lower_times[last_lower][0], lower_times[last_upper]][0])`:
the trailing `[0]` keeps only the lower-partition value, and the
discarded second entry fancy-indexes the lower arrays with the upper tie
indices (modelled bounds-checked).  `none` models the ValueError of
`np.amax` on an empty partition or an IndexError of that stray read. -/
def find_spike_last_occurance_both (times xpos : List ℚ) (t_start t_stop x_start : ℚ) :
    Option (ℚ × ℚ) :=
  let sup_indexes := npWhere (fun v => decide (t_start < v)) times
  let inf_indexes := npWhere (fun v => decide (v < t_stop)) times
  let good_indexes := intersect1d sup_indexes inf_indexes
  let considered_spike_times := npTake times good_indexes
  let considered_spike_positions := npTake xpos good_indexes
  let upper_spike_index := npWhere (fun p => decide (x_start < p)) considered_spike_positions
  let upper_spike_times := npTake considered_spike_times upper_spike_index
  let lower_spike_index := npWhere (fun p => decide (p < x_start)) considered_spike_positions
  let lower_spike_times := npTake considered_spike_times lower_spike_index
  let lower_spike_positions := npTake considered_spike_positions lower_spike_index
  if upper_spike_times.isEmpty then none
  else if lower_spike_times.isEmpty then none
  else
    let last_upper_spike_index :=
      npWhere (fun v => decide (v = amax upper_spike_times)) upper_spike_times
    let last_lower_spike_index :=
      npWhere (fun v => decide (v = amax lower_spike_times)) lower_spike_times
    do
      let _strayT ← npTakeChecked lower_spike_times last_upper_spike_index
      let t0 ← (npTake lower_spike_times last_lower_spike_index).head?
      let _strayX ← npTakeChecked lower_spike_positions last_upper_spike_index
      let x0 ← (npTake lower_spike_positions last_lower_spike_index).head?
      pure (t0, x0)

/-!
## Conduction velocity (`speed`, lines 450-462; claims C5 and C6)
-/

/-- Result of `speed`: a numeric value, the non-finite float produced by
a zero time span (`0/0` is NaN, `x/0` is an infinity), or the ValueError
numpy raises when `argmax`/`argmin` meets an empty array. -/
inductive SpeedResult
  | ok (v : ℚ)
  | nanInf
  | err
deriving DecidableEq

/-- Embedding of the windowing and velocity computation of `speed`
(lines 450-462), after key-prefix resolution and the window defaults.
The source intersects `good_indexes_position` — indices relative to the
time-filtered subarray — with `good_indexes_time` — absolute indices
into the raster arrays — exactly as written. -/
def speed (times xpos : List ℚ) (t_start t_stop x_start x_stop : ℚ) : SpeedResult :=
  let sup_time_indexes := npWhere (fun v => decide (t_start < v)) times
  let inf_time_indexes := npWhere (fun v => decide (v < t_stop)) times
  let good_indexes_time := intersect1d sup_time_indexes inf_time_indexes
  let sub_positions := npTake xpos good_indexes_time
  let sup_position_indexes := npWhere (fun p => decide (x_start ≤ p)) sub_positions
  let inf_position_indexes := npWhere (fun p => decide (p ≤ x_stop)) sub_positions
  let good_indexes_position := intersect1d sup_position_indexes inf_position_indexes
  let good_indexes := intersect1d good_indexes_position good_indexes_time
  let good_spike_times := npTake times good_indexes
  let good_spike_positions := npTake xpos good_indexes
  if good_spike_times.isEmpty then SpeedResult.err
  else
    let max_time := argmaxQ good_spike_times
    let min_time := argminQ good_spike_times
    if good_spike_times.getD max_time 0 = good_spike_times.getD min_time 0 then
      SpeedResult.nanInf
    else
      SpeedResult.ok ((good_spike_positions.getD max_time 0 -
          good_spike_positions.getD min_time 0) * (1 / 1000) /
        (good_spike_times.getD max_time 0 - good_spike_times.getD min_time 0))

/-- Velocity as worded by claim C5: the qualifying events are those
inside both windows jointly, and the value is
`(x_at_max_time - x_at_min_time) * 1e-3 / (t_max - t_min)` with the
extrema taken by time over the qualifying events. -/
def speedSpec (times xpos : List ℚ) (t_start t_stop x_start x_stop : ℚ) : Option ℚ :=
  let es := (times.zip xpos).filter fun e =>
    decide (t_start < e.1) && decide (e.1 < t_stop) &&
      decide (x_start ≤ e.2) && decide (e.2 ≤ x_stop)
  let ts := es.map Prod.fst
  let ps := es.map Prod.snd
  if es.isEmpty then none
  else
    some ((ps.getD (argmaxQ ts) 0 - ps.getD (argminQ ts) 0) * (1 / 1000) /
      (ts.getD (argmaxQ ts) 0 - ts.getD (argminQ ts) 0))

/-!
## Notch filtering (`filter_freq`, lines 150-172; claim C7)
-/

/-- Embedding of the iterable-frequency branch of `filter_freq`,
parametric over the external scipy routines (`iirnotch` maps a
frequency, quality factor and sample rate to filter coefficients).  The
source passes `new_sig[k,:][k]` — the `k`-th scalar of the current row —
to `lfilter`; scipy's `lfilter` raises ValueError on a 0-d input, and
reading past the row's end raises IndexError, both modelled as `none`.
The `dt == 0` early return (`False`) is also modelled as `none`. -/
def filter_freq_rows (iirnotch : ℚ → ℚ → ℚ → ℚ × ℚ) (V : List (List ℚ))
    (freqs : List ℚ) (dt Q : ℚ) : Option (List (List ℚ)) :=
  if dt = 0 then none
  else
    let fs := 1 / dt
    (List.range V.length).mapM fun k =>
      freqs.foldlM (fun row f =>
        let _coeffs := iirnotch f Q fs
        match row.get? k with
        | none => none
        | some _ => none) (V.getD k [])

/-- Sequential per-row notch filtering as worded by claim C7: each notch
is applied to the full filtered row produced by the previous notch,
using the coefficients designed for its frequency. -/
def filter_freqSpec (iirnotch : ℚ → ℚ → ℚ → ℚ × ℚ) (lfilter : ℚ × ℚ → List ℚ → List ℚ)
    (V : List (List ℚ)) (freqs : List ℚ) (dt Q : ℚ) : Option (List (List ℚ)) :=
  if dt = 0 then none
  else some (V.map fun row => freqs.foldl (fun r f => lfilter (iirnotch f Q (1 / dt)) r) row)

/-!
## Block detection (`block`, lines 484-515; claim C8)
-/

/-- Result of `block`: the boolean flag, the implicit `None` return, or
an uncaught exception. -/
inductive BlockResult
  | flag (b : Bool)
  | noneVal
  | err
deriving DecidableEq

/-- Embedding of `block` after resolution of the raster key and the
window defaults; `rasterPresent` is false when no raster key exists (the
source returns `False` then).  The source's guard
`blocked_spike_positionlist == []` compares a numpy array with an empty
list literal: for an empty array the comparison is an empty boolean
array (falsy) and for a nonempty one it is `False`, so the guard never
fires and is modelled as skipped.  The subsequent `max()`/`min()` of an
empty sequence raises ValueError, modelled by `BlockResult.err`; a
record without `intra_stim_positions` falls through to the implicit
`return None`. -/
def block (rasterPresent : Bool) (times xpos : List ℚ) (t_start t_stop : ℚ)
    (intra_stim_positions : Option ℚ) (electrode_x L : ℚ) : BlockResult :=
  if !rasterPresent then BlockResult.flag false
  else
    let sup_time_indexes := npWhere (fun v => decide (t_start < v)) times
    let inf_time_indexes := npWhere (fun v => decide (v < t_stop)) times
    let good_indexes_time := intersect1d sup_time_indexes inf_time_indexes
    let blocked_spike_positionlist := npTake xpos good_indexes_time
    match intra_stim_positions with
    | some p =>
      if p < electrode_x then
        match pymax blocked_spike_positionlist with
        | none => BlockResult.err
        | some m => BlockResult.flag (decide (m < 9 / 10 * L))
      else
        match pymin blocked_spike_positionlist with
        | none => BlockResult.err
        | some m => BlockResult.flag (decide (1 / 10 * L < m))
    | none => BlockResult.noneVal

/-!
## Spike counting (`count_spike`, lines 517-531; claim C9)
-/

/-- Embedding of `count_spike`: 0 for an empty list, else 1 plus one for
every position below the last that equals the minimum of the list and is
repeated at the next position. -/
def count_spike (onset_position : List ℚ) : ℕ :=
  if onset_position.length = 0 then 0
  else
    (List.range (onset_position.length - 1)).foldl
      (fun spike_number i =>
        if onset_position.getD i 0 = (pymin onset_position).getD 0 ∧
            onset_position.getD i 0 = onset_position.getD (i + 1) 0 then
          spike_number + 1
        else spike_number) 1

/-!
## Claim C1: the detector against the spec's wording
-/

/-- The source's row scan agrees with the amended wording on any scan
list: the only textual difference is `t_min_spike*(1/dt)` against
`t_min_spike/dt`, which are the same rational. -/
theorem scanRow_eq_amended (V : ℕ → ℚ) (thr dt t_min_spike t_refractory : ℚ) (t_stop : ℕ) :
    ∀ (js : List ℕ) (t_last : ℚ),
      scanRow V thr dt t_min_spike t_refractory t_stop js t_last =
        scanRowAmended V thr dt t_min_spike t_refractory t_stop js t_last
  | [], _ => rfl
  | j :: js, t_last => by
    simp only [scanRow, scanRowAmended, mul_one_div]
    by_cases h : V j ≤ thr ∧ thr ≤ V (j + 1) ∧
        thr ≤ V (Int.toNat (min ((j : ℤ) + pyInt (t_min_spike / dt)) (t_stop : ℤ))) ∧
        t_refractory < (j : ℚ) * dt - t_last
    · rw [if_pos h, if_pos h,
        scanRow_eq_amended V thr dt t_min_spike t_refractory t_stop js]
    · rw [if_neg h, if_neg h,
        scanRow_eq_amended V thr dt t_min_spike t_refractory t_stop js]

/-- Bounds for rounding: the nearest integer of a rational lies between
its floor and its floor plus one. -/
theorem round_between (q : ℚ) : ⌊q⌋ ≤ round q ∧ round q ≤ ⌊q⌋ + 1 := by
  rw [round_eq]
  constructor
  · exact Int.floor_le_floor (by linarith)
  · calc ⌊q + 1 / 2⌋ ≤ ⌊q + 1⌋ := Int.floor_le_floor (by linarith)
      _ = ⌊q⌋ + 1 := Int.floor_add_one q

/-- Scanning from `round(t_start/dt)` instead of the source's
`int(t_start/dt)` changes nothing: any extra index `j` scanned by the
source has `j*dt < t_start` and is rejected by the refractory test,
whose initial state is `t_start - t_refractory`. -/
theorem scanRowAmended_start (V : ℕ → ℚ) (thr dt t_start t_min_spike t_refractory : ℚ)
    (t_stop : ℕ) (hdt : 0 < dt) (hts : 0 ≤ t_start) :
    scanRowAmended V thr dt t_min_spike t_refractory t_stop
        (rowIdxs t_start dt t_stop) (t_start - t_refractory) =
      scanRowAmended V thr dt t_min_spike t_refractory t_stop
        (rowIdxsSpec t_start dt t_stop) (t_start - t_refractory) := by
  have hq : 0 ≤ t_start / dt := div_nonneg hts hdt.le
  have hfl0 : (0 : ℤ) ≤ ⌊t_start / dt⌋ := Int.le_floor.mpr (by exact_mod_cast hq)
  have hstart : scanStart t_start dt = (⌊t_start / dt⌋).toNat := by
    simp only [scanStart, pyInt, mul_one_div, if_pos hq]
  rcases round_between (t_start / dt) with ⟨hlo, hhi⟩
  rcases eq_or_lt_of_le hlo with heq | hlt
  · -- the rounded start equals the floored start: identical scan lists
    simp only [rowIdxs, rowIdxsSpec, hstart, heq]
  · -- the rounded start is the floored start plus one
    have hround : round (t_start / dt) = ⌊t_start / dt⌋ + 1 := le_antisymm hhi hlt
    have hne : (⌊t_start / dt⌋ : ℚ) ≠ t_start / dt := by
      intro hcast
      have hri : round ((⌊t_start / dt⌋ : ℚ)) = ⌊t_start / dt⌋ := round_intCast _
      rw [hcast] at hri
      omega
    have hflt : (⌊t_start / dt⌋ : ℚ) < t_start / dt :=
      lt_of_le_of_ne (Int.floor_le _) hne
    set s : ℕ := (⌊t_start / dt⌋).toNat with hs
    have hsz : (s : ℤ) = ⌊t_start / dt⌋ := Int.toNat_of_nonneg hfl0
    have hsdt : (s : ℚ) * dt < t_start := by
      have hsq : (s : ℚ) < t_start / dt := by
        rw [show ((s : ℕ) : ℚ) = ((s : ℤ) : ℚ) by push_cast; ring, hsz]
        exact hflt
      calc (s : ℚ) * dt < t_start / dt * dt := by
            exact mul_lt_mul_of_pos_right hsq hdt
        _ = t_start := div_mul_cancel₀ t_start hdt.ne'
    have hsA : (round (t_start / dt)).toNat = s + 1 := by
      rw [hround]; omega
    rw [rowIdxs, rowIdxsSpec, hstart, hsA]
    by_cases hlt' : s < t_stop
    · have hn : t_stop - s = (t_stop - (s + 1)) + 1 := by omega
      rw [hn, List.range'_succ]
      rw [scanRowAmended, if_neg]
      rintro ⟨-, -, -, h4⟩
      have : t_start < (s : ℚ) * dt := by linarith
      exact absurd this (not_lt.mpr hsdt.le)
    · have h1 : t_stop - s = 0 := by omega
      have h2 : t_stop - (s + 1) = 0 := by omega
      rw [h1, h2]
      rfl

/-- C1, counterexample: with `dt = 0.1` and `t_min_spike = 0.26` the
source truncates `t_min_spike/dt = 2.6` to `2` while the claim rounds it
to `3`; on the row `[-1, -1, 1, 1, -5, -5]` with threshold `0` the
source records a spike at sample 1 (duration check reads sample 3) and
the claimed detector records none (duration check reads sample 4). -/
theorem c1_counterexample :
    spike_detection c1V c1T c1X [0] 0 (1 / 10) 0 5 2 (13 / 50) ≠
      spike_detectionSpec c1V c1T c1X [0] 0 (1 / 10) 0 5 2 (13 / 50) := by
  with_unfolding_all decide

/-- C1 (amended): the spike detector scans sample indices from
`round(t_start/dt)` to `t_stop - 1` and records a spike at `j` iff
`Voltage[i][j] <= thr`, `Voltage[i][j+1] >= thr`,
`Voltage[i][min(j + int(t_min_spike/dt), t_stop)] >= thr` (with `int`
truncating as Python's `int`, not rounding), and
`j*dt - t_last_spike > t_refractory`; on acceptance it appends
`(i, coordinate[i], j, t[j])` and sets `t_last_spike = j*dt`, with
`t_last_spike` initialised to `t_start - t_refractory` per row.  Proved
for a positive sample step and nonnegative start time. -/
theorem c1_spike_detection_amended (V : ℕ → ℕ → ℚ) (t x : ℕ → ℚ) (lst : List ℕ)
    (thr dt t_start : ℚ) (t_stop : ℕ) (tref tmin : ℚ)
    (hdt : 0 < dt) (hts : 0 ≤ t_start) :
    spike_detection V t x lst thr dt t_start t_stop tref tmin =
      spike_detectionAmended V t x lst thr dt t_start t_stop tref tmin := by
  unfold spike_detection spike_detectionAmended
  congr 1
  funext i
  rw [scanRow_eq_amended,
    scanRowAmended_start (V i) thr dt t_start tmin tref t_stop hdt hts]

/-- C1 witness: the amended equivalence evaluated at the counterexample
scenario's concrete input. -/
theorem c1_spike_detection_amended_witness :
    spike_detection c1V c1T c1X [0] 0 (1 / 10) 0 5 2 (13 / 50) =
      spike_detectionAmended c1V c1T c1X [0] 0 (1 / 10) 0 5 2 (13 / 50) :=
  c1_spike_detection_amended c1V c1T c1X [0] 0 (1 / 10) 0 5 2 (13 / 50)
    (by norm_num) (by norm_num)

/-!
## Claim C2: refractory invariant of the detector output
-/

/-- Every index recorded by `scanRow` comes from its scan list. -/
theorem scanRow_subset (V : ℕ → ℚ) (thr dt t_min_spike t_refractory : ℚ) (t_stop : ℕ) :
    ∀ (js : List ℕ) (t_last : ℚ) (a : ℕ),
      a ∈ scanRow V thr dt t_min_spike t_refractory t_stop js t_last → a ∈ js
  | [], _, a, h => by simp [scanRow] at h
  | j :: js, t_last, a, h => by
    simp only [scanRow] at h
    split at h
    · rcases List.mem_cons.mp h with rfl | h'
      · exact List.mem_cons_self _ _
      · exact List.mem_cons_of_mem j
          (scanRow_subset V thr dt t_min_spike t_refractory t_stop js _ a h')
    · exact List.mem_cons_of_mem j
        (scanRow_subset V thr dt t_min_spike t_refractory t_stop js _ a h)

/-- Strengthened refractory invariant of the row scan: the first
recorded index fires more than `t_refractory` after the incoming
`t_last_spike` state, and consecutive recorded indices are strictly
increasing with sample times `j*dt` more than `t_refractory` apart. -/
theorem scanRow_chain (V : ℕ → ℚ) (thr dt t_min_spike t_refractory : ℚ) (t_stop : ℕ) :
    ∀ (js : List ℕ) (t_last : ℚ), js.Pairwise (· < ·) →
      (∀ h ∈ (scanRow V thr dt t_min_spike t_refractory t_stop js t_last).head?,
          t_refractory < (h : ℚ) * dt - t_last) ∧
        List.Chain' (fun a b : ℕ => a < b ∧ t_refractory < (b : ℚ) * dt - (a : ℚ) * dt)
          (scanRow V thr dt t_min_spike t_refractory t_stop js t_last)
  | [], _, _ => by constructor <;> simp [scanRow]
  | j :: js, t_last, hp => by
    rcases List.pairwise_cons.mp hp with ⟨hj, hp'⟩
    by_cases hc : V j ≤ thr ∧ thr ≤ V (j + 1) ∧
        thr ≤ V (Int.toNat (min ((j : ℤ) + pyInt (t_min_spike * (1 / dt))) (t_stop : ℤ))) ∧
        t_refractory < (j : ℚ) * dt - t_last
    · have ih := scanRow_chain V thr dt t_min_spike t_refractory t_stop js ((j : ℚ) * dt) hp'
      simp only [scanRow, if_pos hc]
      constructor
      · intro h hh
        simp only [List.head?_cons, Option.mem_def, Option.some.injEq] at hh
        subst hh
        exact hc.2.2.2
      · refine List.chain'_cons'.mpr ⟨?_, ih.2⟩
        intro y hy
        refine ⟨?_, ih.1 y hy⟩
        have hym : y ∈ scanRow V thr dt t_min_spike t_refractory t_stop js ((j : ℚ) * dt) :=
          List.mem_of_mem_head? hy
        exact hj y (scanRow_subset V thr dt t_min_spike t_refractory t_stop js _ y hym)
    · simp only [scanRow, if_neg hc]
      exact scanRow_chain V thr dt t_min_spike t_refractory t_stop js t_last hp'

/-- Scan lists produced by `rowIdxs` are strictly increasing. -/
theorem rowIdxs_pairwise (t_start dt : ℚ) (t_stop : ℕ) :
    (rowIdxs t_start dt t_stop).Pairwise (· < ·) := by
  rw [rowIdxs, List.range'_eq_map_range]
  exact (List.pairwise_lt_range _).map _ (fun a b h => by omega)

/-- Filtering the concatenation of per-row outputs by row index recovers
exactly one row's output when the scan list has no duplicates. -/
theorem flatMap_filter_eq (g : ℕ → List (ℕ × ℚ × ℕ × ℚ))
    (hg : ∀ i e, e ∈ g i → e.1 = i) (i : ℕ) :
    ∀ lst : List ℕ, lst.Nodup →
      (lst.flatMap g).filter (fun e => decide (e.1 = i)) = if i ∈ lst then g i else []
  | [], _ => by simp
  | a :: l, hnd => by
    rcases List.nodup_cons.mp hnd with ⟨ha, hl⟩
    rw [List.flatMap_cons, List.filter_append, flatMap_filter_eq g hg i l hl]
    by_cases hia : i = a
    · subst hia
      have h1 : (g i).filter (fun e => decide (e.1 = i)) = g i :=
        List.filter_eq_self.mpr (fun e he => by simp [hg i e he])
      rw [h1, if_neg ha, if_pos (List.mem_cons_self i l)]
      simp
    · have h1 : (g a).filter (fun e => decide (e.1 = i)) = [] := by
        rw [List.filter_eq_nil_iff]
        intro e he
        have hea := hg a e he
        simp only [hea, decide_eq_true_eq]
        exact fun h => hia h.symm
      rw [h1]
      simp only [List.mem_cons, List.nil_append]
      by_cases hm : i ∈ l
      · rw [if_pos hm, if_pos (Or.inr hm)]
      · rw [if_neg hm, if_neg (by rintro (h | h) <;> [exact hia h; exact hm h])]

/-- C2 (confirmed): on every scanned row `i` of the detector output the
recorded event times are strictly increasing and consecutive recorded
times differ by more than `t_refractory`; proved for a positive sample
step, sample times `t[j] = j*dt`, and a duplicate-free scan list. -/
theorem c2_refractory (V : ℕ → ℕ → ℚ) (t x : ℕ → ℚ) (lst : List ℕ)
    (thr dt t_start : ℚ) (t_stop : ℕ) (tref tmin : ℚ)
    (hdt : 0 < dt) (ht : ∀ j, t j = (j : ℚ) * dt) (hnd : lst.Nodup) (i : ℕ) :
    List.Chain' (fun a b : ℚ => a < b ∧ tref < b - a)
      (((spike_detection V t x lst thr dt t_start t_stop tref tmin).filter
          (fun e => decide (e.1 = i))).map fun e => e.2.2.2) := by
  have hg : ∀ i' (e : ℕ × ℚ × ℕ × ℚ),
      e ∈ (scanRow (V i') thr dt tmin tref t_stop
          (rowIdxs t_start dt t_stop) (t_start - tref)).map
            (fun j => (i', x i', j, t j)) → e.1 = i' := by
    intro i' e he
    rcases List.mem_map.mp he with ⟨j, -, rfl⟩
    rfl
  unfold spike_detection
  rw [flatMap_filter_eq _ hg i lst hnd]
  by_cases hi : i ∈ lst
  · rw [if_pos hi, List.map_map]
    have hcomp : ((fun e : ℕ × ℚ × ℕ × ℚ => e.2.2.2) ∘ fun j => (i, x i, j, t j)) =
        fun j => t j := rfl
    rw [hcomp, List.chain'_map]
    have hidx := scanRow_chain (V i) thr dt tmin tref t_stop
      (rowIdxs t_start dt t_stop) (t_start - tref) (rowIdxs_pairwise t_start dt t_stop)
    refine (hidx.2).imp ?_
    intro a b hab
    rw [ht a, ht b]
    refine ⟨?_, hab.2⟩
    have hcast : (a : ℚ) < b := by exact_mod_cast hab.1
    exact mul_lt_mul_of_pos_right hcast hdt
  · rw [if_neg hi]
    simp

/-- C2 witness: the refractory invariant instantiated on a concrete
detector run. -/
theorem c2_refractory_witness :
    List.Chain' (fun a b : ℚ => a < b ∧ (2 : ℚ) < b - a)
      (((spike_detection c2V c2T c2X [0] 0 (1 / 10) 0 5 2 (1 / 10)).filter
          (fun e => decide (e.1 = 0))).map fun e => e.2.2.2) :=
  c2_refractory c2V c2T c2X [0] 0 (1 / 10) 0 5 2 (1 / 10)
    (by norm_num) (fun j => rfl) (by decide) 0

/-!
## Claim C10: bounds safety of the detector's reads
-/

/-- Reading inside the bounds of a list always succeeds, with the value
given by `getD`. -/
theorem get?_of_lt {α : Type} (d : α) : ∀ (xs : List α) (n : ℕ), n < xs.length →
    xs.get? n = some (xs.getD n d)
  | [], _, h => absurd h (by simp)
  | _ :: _, 0, _ => rfl
  | _ :: xs, n + 1, h => get?_of_lt d xs n (by simpa using h)

/-- Binding a present optional value just applies the continuation. -/
theorem option_some_bind {α β : Type} (a : α) (f : α → Option β) :
    (some a : Option α) >>= f = f a := rfl

/-- With at least `t_stop + 1` samples in the row, the bounds-checked
row scan never fails and agrees with the total embedding. -/
theorem scanRowSafe_eq (V : List ℚ) (thr dt t_min_spike t_refractory : ℚ) (t_stop : ℕ)
    (hlen : t_stop + 1 ≤ V.length) :
    ∀ (js : List ℕ) (t_last : ℚ), (∀ j ∈ js, j < t_stop) →
      scanRowSafe V thr dt t_min_spike t_refractory t_stop js t_last =
        some (scanRow (fun k => V.getD k 0) thr dt t_min_spike t_refractory t_stop js t_last)
  | [], _, _ => rfl
  | j :: js, t_last, hb => by
    have hj : j < t_stop := hb j (List.mem_cons_self _ _)
    have hb' : ∀ j' ∈ js, j' < t_stop := fun j' h => hb j' (List.mem_cons_of_mem _ h)
    have h1 : j < V.length := by omega
    have h2 : j + 1 < V.length := by omega
    have hdi : Int.toNat (min ((j : ℤ) + pyInt (t_min_spike * (1 / dt)))
        (t_stop : ℤ)) < V.length := by
      have hm := min_le_right ((j : ℤ) + pyInt (t_min_spike * (1 / dt))) ((t_stop : ℕ) : ℤ)
      omega
    simp only [scanRowSafe, scanRow, get?_of_lt (0 : ℚ) V j h1,
      get?_of_lt (0 : ℚ) V (j + 1) h2, get?_of_lt (0 : ℚ) V _ hdi, option_some_bind]
    by_cases hc1 : V.getD j 0 ≤ thr
    · by_cases hc2 : thr ≤ V.getD (j + 1) 0
      · by_cases hc3 : thr ≤ V.getD
            (Int.toNat (min ((j : ℤ) + pyInt (t_min_spike * (1 / dt))) (t_stop : ℤ))) 0
        · by_cases hc4 : t_refractory < (j : ℚ) * dt - t_last
          · rw [if_pos hc1, if_pos hc2, if_pos hc3, if_pos hc4,
              if_pos ⟨hc1, hc2, hc3, hc4⟩,
              scanRowSafe_eq V thr dt t_min_spike t_refractory t_stop hlen js _ hb']
            rfl
          · rw [if_pos hc1, if_pos hc2, if_pos hc3, if_neg hc4,
              if_neg (fun hc => hc4 hc.2.2.2),
              scanRowSafe_eq V thr dt t_min_spike t_refractory t_stop hlen js _ hb']
        · rw [if_pos hc1, if_pos hc2, if_neg hc3,
            if_neg (fun hc => hc3 hc.2.2.1),
            scanRowSafe_eq V thr dt t_min_spike t_refractory t_stop hlen js _ hb']
      · rw [if_pos hc1, if_neg hc2, if_neg (fun hc => hc2 hc.2.1),
          scanRowSafe_eq V thr dt t_min_spike t_refractory t_stop hlen js _ hb']
    · rw [if_neg hc1, if_neg (fun hc => hc1 hc.1),
        scanRowSafe_eq V thr dt t_min_spike t_refractory t_stop hlen js _ hb']

/-- With `x[i]` and all accepted `t[j]` in bounds, the bounds-checked
append never fails. -/
theorem entriesSafe_eq (x t : List ℚ) (i : ℕ) (hx : i < x.length) :
    ∀ js : List ℕ, (∀ j ∈ js, j < t.length) →
      entriesSafe x t i js = some (js.map fun j => (i, x.getD i 0, j, t.getD j 0))
  | [], _ => rfl
  | j :: js, hb => by
    have hj : j < t.length := hb j (List.mem_cons_self _ _)
    simp only [entriesSafe, get?_of_lt (0 : ℚ) x i hx, get?_of_lt (0 : ℚ) t j hj,
      entriesSafe_eq x t i hx js (fun j' h => hb j' (List.mem_cons_of_mem _ h)),
      option_some_bind]
    rfl

/-- Every scanned sample index is below `t_stop`. -/
theorem rowIdxs_lt (t_start dt : ℚ) (t_stop : ℕ) :
    ∀ j ∈ rowIdxs t_start dt t_stop, j < t_stop := by
  intro j hj
  have := List.mem_range'_1.mp hj
  omega

/-- With every scanned row holding at least `t_stop + 1` samples, the
bounds-checked detector never fails and agrees with the total
embedding. -/
theorem rowsSafe_eq (Voltage : List (List ℚ)) (t x : List ℚ)
    (thr dt t_start : ℚ) (t_stop : ℕ) (tref tmin : ℚ) (ht : t_stop ≤ t.length) :
    ∀ lst : List ℕ,
      (∀ i ∈ lst, i < Voltage.length ∧ t_stop + 1 ≤ (Voltage.getD i []).length ∧ i < x.length) →
      rowsSafe Voltage t x thr dt t_start t_stop tref tmin lst =
        some (spike_detection (fun i k => (Voltage.getD i []).getD k 0)
          (fun j => t.getD j 0) (fun i => x.getD i 0) lst thr dt t_start t_stop tref tmin)
  | [], _ => rfl
  | i :: lst, hb => by
    obtain ⟨hVi, hrow, hxi⟩ := hb i (List.mem_cons_self _ _)
    have hjs := rowIdxs_lt t_start dt t_stop
    have hacc : ∀ j ∈ scanRow (fun k => (Voltage.getD i []).getD k 0) thr dt tmin tref t_stop
        (rowIdxs t_start dt t_stop) (t_start - tref), j < t.length := by
      intro j hjm
      exact lt_of_lt_of_le
        (hjs j (scanRow_subset _ thr dt tmin tref t_stop _ _ j hjm)) ht
    simp only [rowsSafe, get?_of_lt ([] : List ℚ) Voltage i hVi,
      scanRowSafe_eq (Voltage.getD i []) thr dt tmin tref t_stop hrow _ _ hjs,
      entriesSafe_eq x t i hxi _ hacc,
      rowsSafe_eq Voltage t x thr dt t_start t_stop tref tmin ht lst
        (fun i' h => hb i' (List.mem_cons_of_mem _ h)),
      option_some_bind]
    simp only [spike_detection, List.flatMap_cons]
    rfl

/-- C10 (confirmed): all voltage reads of `spike_detection` stay in
bounds when every scanned row has at least `t_stop + 1` samples (the
scan reads sample `j+1 = t_stop` at the last scanned index and the
minimum-duration read is clamped to `t_stop`), so under that
precondition the bounds-checked embedding never takes its error branch
and agrees with the total embedding; and with only `t_stop` samples per
row the error branch is reached on a concrete input. -/
theorem c10_safety :
    (∀ (Voltage : List (List ℚ)) (t x : List ℚ) (lst : List ℕ)
        (thr dt t_start : ℚ) (t_stop : ℕ) (tref tmin : ℚ),
        (∀ i ∈ lst,
          i < Voltage.length ∧ t_stop + 1 ≤ (Voltage.getD i []).length ∧ i < x.length) →
        t_stop ≤ t.length →
        spike_detectionSafe Voltage t x lst thr dt t_start t_stop tref tmin =
          some (spike_detection (fun i k => (Voltage.getD i []).getD k 0)
            (fun j => t.getD j 0) (fun i => x.getD i 0) lst thr dt t_start t_stop tref tmin)) ∧
      spike_detectionSafe [[-1, -1]] [0, 1 / 10] [5] [0] 0 (1 / 10) 0 2 2 (1 / 10) = none := by
  constructor
  · intro Voltage t x lst thr dt t_start t_stop tref tmin hbound ht
    exact rowsSafe_eq Voltage t x thr dt t_start t_stop tref tmin ht lst hbound
  · with_unfolding_all decide

/-- C10 witness: the safety direction evaluated on a concrete record
with `t_stop + 1 = 3` samples per row. -/
theorem c10_safety_witness :
    spike_detectionSafe [[-1, -1, 1]] [0, 1 / 10] [5] [0] 0 (1 / 10) 0 2 2 (1 / 10) =
      some (spike_detection (fun i k => (([[-1, -1, 1]] : List (List ℚ)).getD i []).getD k 0)
        (fun j => ([0, 1 / 10] : List ℚ).getD j 0) (fun i => ([5] : List ℚ).getD i 0)
        [0] 0 (1 / 10) 0 2 2 (1 / 10)) :=
  c10_safety.1 [[-1, -1, 1]] [0, 1 / 10] [5] [0] 0 (1 / 10) 0 2 2 (1 / 10)
    (by intro i hi; fin_cases hi; exact ⟨by norm_num, by norm_num, by norm_num⟩)
    (by norm_num)

/-!
## Claim C4: both-directions last occurrence
-/

set_option maxRecDepth 16000 in
/-- C4 (code bug): on the raster `times = [1, 5, 7]`,
`xpos = [2, 1, 9]` with window `(0, 10)` and `x_start = 4`, the lower
partition's extremum is the event `(5, 1)` and the upper partition's is
`(7, 9)`; the claimed pairing would return both, but the source returns
only the scalar lower extremum `(5, 1)` — the trailing `[0]` of
`[lower[last_lower][0], lower[last_upper]][0]` discards the second entry
(which moreover reads the lower arrays at the upper tie indices). -/
theorem c4_last_occurance_both_eval :
    find_spike_last_occurance_both [1, 5, 7] [2, 1, 9] 0 10 4 = some (5, 1) := by
  with_unfolding_all decide

/-!
## Claims C5 and C6: velocity windowing and degenerate windows
-/

set_option maxRecDepth 16000 in
/-- C5 (code bug): on the raster `times = [0, 5, 6]`,
`xpos = [100, 3, 4]` with time window `(1, 100)` and coordinate window
`[0, 10]`, the events qualifying jointly are `(5, 3)` and `(6, 4)` and
the claimed velocity is `(4 - 3) * 1e-3 / (6 - 5) = 1/1000`; the source
instead intersects relative position indices `{0, 1}` with absolute time
indices `{1, 2}`, keeps only event 1, and divides by the zero time span,
producing a non-finite float. -/
theorem c5_speed_window_eval :
    speed [0, 5, 6] [100, 3, 4] 1 100 0 10 = SpeedResult.nanInf ∧
      speedSpec [0, 5, 6] [100, 3, 4] 1 100 0 10 = some (1 / 1000) := by
  constructor <;> with_unfolding_all decide

set_option maxRecDepth 16000 in
/-- C6 (code bug): with a single qualifying event (`times = [5]`,
`xpos = [3]`, windows `(0, 10)` and `[0, 10]`) — fewer than two distinct
event times — the source computes `0 * 1e-3 / 0`, a NaN, instead of
reporting a distinct insufficient-data result. -/
theorem c6_speed_degenerate_eval :
    speed [5] [3] 0 10 0 10 = SpeedResult.nanInf := by
  with_unfolding_all decide

/-!
## Claim C7: sequential notch filtering
-/

/-- C7 (code bug): for any filter design and application routines, the
iterable-frequency branch of `filter_freq` on the record
`V = [[1, 2]]`, `freq = [3]`, `dt = 1/2` fails (the scalar
`new_sig[0,:][0]` is handed to `lfilter`, raising ValueError, so no
`<key>_filtered` field is ever written), while the claimed behaviour
filters the full row with the notch designed at frequency 3. -/
theorem c7_filter_freq_eval (iirnotch : ℚ → ℚ → ℚ → ℚ × ℚ)
    (lfilter : ℚ × ℚ → List ℚ → List ℚ) :
    filter_freq_rows iirnotch [[1, 2]] [3] (1 / 2) 10 = none ∧
      filter_freqSpec iirnotch lfilter [[1, 2]] [3] (1 / 2) 10 =
        some [lfilter (iirnotch 3 10 2) [1, 2]] := by
  constructor
  · with_unfolding_all rfl
  · with_unfolding_all rfl

/-!
## Claim C8: block detection on an empty window
-/

set_option maxRecDepth 16000 in
/-- C8 (code bug): with the raster present but no event inside the time
window (one event at `t = 5`, window `(10, 20)`), and a proximal
stimulation position, the source reaches `max()` on an empty sequence
and raises ValueError — the dead `== []` guard never returns the
claimed 'no data' result. -/
theorem c8_block_eval :
    block true [5] [3] 10 20 (some 1) 2 100 = BlockResult.err := by
  with_unfolding_all decide

/-!
## Claim C9: spike counting
-/

/-- Counting with a fold of conditional increments equals the length of
the filtered index list. -/
theorem foldl_count_filter (P : ℕ → Prop) [DecidablePred P] :
    ∀ (l : List ℕ) (c : ℕ),
      l.foldl (fun n i => if P i then n + 1 else n) c =
        c + (l.filter fun i => decide (P i)).length
  | [], c => by simp
  | i :: l, c => by
    by_cases h : P i
    · have hd : decide (P i) = true := decide_eq_true h
      simp only [List.foldl_cons, if_pos h, List.filter_cons, hd, if_true,
        List.length_cons, foldl_count_filter P l (c + 1)]
      omega
    · have hd : decide (P i) = false := decide_eq_false h
      simp only [List.foldl_cons, if_neg h, List.filter_cons, hd,
        Bool.false_eq_true, if_false, foldl_count_filter P l c]

/-- C9 (confirmed): `count_spike` returns 0 on an empty onset list, and
on a non-empty list returns 1 plus the number of indices `i < len - 1`
whose entry equals the minimum of the list and is repeated at `i+1`. -/
theorem c9_count_spike :
    count_spike [] = 0 ∧
      ∀ xs : List ℚ, xs ≠ [] →
        count_spike xs = 1 + ((List.range (xs.length - 1)).filter fun i =>
          decide (xs.getD i 0 = (pymin xs).getD 0 ∧
            xs.getD i 0 = xs.getD (i + 1) 0)).length := by
  constructor
  · rfl
  · intro xs hne
    rw [count_spike, if_neg (fun h => hne (List.length_eq_zero.mp h)),
      foldl_count_filter _ (List.range (xs.length - 1)) 1]

/-- C9 witness: the counting identity evaluated on the onset list
`[2, 2, 3]`, whose minimum 2 is repeated once. -/
theorem c9_count_spike_witness :
    count_spike ([2, 2, 3] : List ℚ) =
      1 + ((List.range 2).filter fun i =>
        decide (([2, 2, 3] : List ℚ).getD i 0 = (pymin [2, 2, 3]).getD 0 ∧
          ([2, 2, 3] : List ℚ).getD i 0 = ([2, 2, 3] : List ℚ).getD (i + 1) 0)).length :=
  c9_count_spike.2 [2, 2, 3] (by simp)

/-!
## Claim C3: the origin query
-/

/-- Two filters over an index range agree when the predicates agree
below the bound. -/
theorem filter_range_congr (n : ℕ) (f g : ℕ → Bool) (h : ∀ i, i < n → f i = g i) :
    (List.range n).filter f = (List.range n).filter g :=
  List.filter_congr fun i hi => h i (List.mem_range.mp hi)

/-- Intersecting two index sets obtained by filtering the same range
keeps the indices satisfying the conjunction. -/
theorem intersect1d_filter (n : ℕ) (f g : ℕ → Bool) :
    intersect1d ((List.range n).filter f) ((List.range n).filter g) =
      (List.range n).filter fun i => f i && g i := by
  unfold intersect1d
  rw [List.filter_filter]
  apply List.filter_congr
  intro i hi
  by_cases hf : f i <;> by_cases hg : g i <;>
    simp [List.mem_filter, hi, hf, hg]

/-- Reading a mapped list inside its bounds. -/
theorem getD_map {α β : Type} (f : α → β) (d : α) (dm : β) :
    ∀ (l : List α) (i : ℕ), i < l.length → (l.map f).getD i dm = f (l.getD i d)
  | [], i, h => absurd h (by simp)
  | _ :: _, 0, _ => rfl
  | _ :: l, i + 1, h => getD_map f d dm l i (by simpa using h)

/-- Indexing a list at the positions where a value predicate holds, and
post-composing with any map, yields the filtered-then-mapped list. -/
theorem filter_range_map {α β : Type} (d : α) (q : α → Bool) (f : α → β) :
    ∀ xs : List α,
      (((List.range xs.length).filter fun i => q (xs.getD i d)).map
          fun i => f (xs.getD i d)) = (xs.filter q).map f
  | [] => rfl
  | a :: xs => by
    have ih := filter_range_map d q f xs
    by_cases hqa : q a
    · simp only [List.length_cons, List.range_succ_eq_map, List.filter_cons,
        List.getD_cons_zero, hqa, if_true, List.filter_map, List.map_cons, List.map_map]
      have hP : ((fun i => q ((a :: xs).getD i d)) ∘ Nat.succ) =
          fun i => q (xs.getD i d) := rfl
      have hF : ((fun i => f ((a :: xs).getD i d)) ∘ Nat.succ) =
          fun i => f (xs.getD i d) := rfl
      rw [hP, hF, ih]
    · simp only [List.length_cons, List.range_succ_eq_map, List.filter_cons,
        List.getD_cons_zero, hqa, Bool.false_eq_true, if_false, List.filter_map,
        List.map_map]
      have hP : ((fun i => q ((a :: xs).getD i d)) ∘ Nat.succ) =
          fun i => q (xs.getD i d) := rfl
      have hF : ((fun i => f ((a :: xs).getD i d)) ∘ Nat.succ) =
          fun i => f (xs.getD i d) := rfl
      rw [hP, hF, ih]

/-- `np.where` on a projection of an event list, as a filter over the
event indices. -/
theorem npWhere_map (l : List (ℚ × ℚ)) (f : ℚ × ℚ → ℚ) (p : ℚ → Bool) :
    npWhere p (l.map f) =
      (List.range l.length).filter fun i => p (f (l.getD i (0, 0))) := by
  unfold npWhere
  rw [List.length_map]
  apply filter_range_congr
  intro i hi
  rw [getD_map f (0, 0) 0 l i hi]

/-- Fancy-indexing a projection of an event list by a filtered index
range yields the filtered projection. -/
theorem npTake_map (l : List (ℚ × ℚ)) (g : ℚ × ℚ → ℚ) (p : (ℚ × ℚ) → Bool) :
    npTake (l.map g) ((List.range l.length).filter fun i => p (l.getD i (0, 0))) =
      (l.filter p).map g := by
  unfold npTake
  have hmc : ∀ i ∈ (List.range l.length).filter (fun i => p (l.getD i (0, 0))),
      (l.map g).getD i 0 = g (l.getD i (0, 0)) := by
    intro i hi
    have hlt : i < l.length := List.mem_range.mp (List.mem_of_mem_filter hi)
    exact getD_map g (0, 0) 0 l i hlt
  rw [List.map_congr_left hmc]
  exact filter_range_map (0, 0) p g l

/-- The lower-bound branch of the origin query is `np.where` with
`xMinOk` (the unbounded branch is the full index range). -/
theorem xmin_where (x_min : Option ℚ) (l : List ℚ) :
    (match x_min with
      | some v => npWhere (fun p => decide (v < p)) l
      | none => List.range l.length) =
      npWhere (fun p => xMinOk x_min p) l := by
  cases x_min with
  | none => simp [npWhere, xMinOk]
  | some v => rfl

/-- The upper-bound branch of the origin query is `np.where` with
`xMaxOk` (the unbounded branch is the full index range). -/
theorem xmax_where (x_max : Option ℚ) (l : List ℚ) :
    (match x_max with
      | some v => npWhere (fun p => decide (p < v)) l
      | none => List.range l.length) =
      npWhere (fun p => xMaxOk x_max p) l := by
  cases x_max with
  | none => simp [npWhere, xMaxOk]
  | some v => rfl

/-- The two windowing stages of the origin query commute into the
claim's single window test. -/
theorem window_comm (t_start t_stop : ℚ) (x_min x_max : Option ℚ) (e : ℚ × ℚ) :
    ((xMinOk x_min e.2 && xMaxOk x_max e.2) &&
        (decide (t_start < e.1) && decide (e.1 < t_stop))) =
      inOriginWindow t_start t_stop x_min x_max e := by
  unfold inOriginWindow
  cases xMinOk x_min e.2 <;> cases xMaxOk x_max e.2 <;>
    cases decide (t_start < e.1) <;> cases decide (e.1 < t_stop) <;> rfl

/-- The source's origin query on the projections of an event list
returns exactly the claim's windowed minimum-time events, projected onto
the two output arrays. -/
theorem originCore_pipeline (es : List (ℚ × ℚ)) (t_start t_stop : ℚ)
    (x_min x_max : Option ℚ)
    (hne : es.filter (inOriginWindow t_start t_stop x_min x_max) ≠ []) :
    find_spike_origin (es.map Prod.fst) (es.map Prod.snd) t_start t_stop x_min x_max =
      some ((originCore es t_start t_stop x_min x_max).map Prod.fst,
        (originCore es t_start t_stop x_min x_max).map Prod.snd) := by
  simp only [find_spike_origin]
  rw [npWhere_map es Prod.fst (fun v => decide (t_start < v)),
    npWhere_map es Prod.fst (fun v => decide (v < t_stop)),
    intersect1d_filter,
    npTake_map es Prod.fst (fun e => decide (t_start < e.1) && decide (e.1 < t_stop)),
    npTake_map es Prod.snd (fun e => decide (t_start < e.1) && decide (e.1 < t_stop))]
  set es1 := es.filter fun e => decide (t_start < e.1) && decide (e.1 < t_stop) with hes1
  rw [xmin_where, xmax_where,
    npWhere_map es1 Prod.snd (fun p => xMinOk x_min p),
    npWhere_map es1 Prod.snd (fun p => xMaxOk x_max p),
    intersect1d_filter,
    npTake_map es1 Prod.fst (fun e => xMinOk x_min e.2 && xMaxOk x_max e.2),
    npTake_map es1 Prod.snd (fun e => xMinOk x_min e.2 && xMaxOk x_max e.2)]
  have hes2 : es1.filter (fun e => xMinOk x_min e.2 && xMaxOk x_max e.2) =
      es.filter (inOriginWindow t_start t_stop x_min x_max) := by
    rw [hes1, List.filter_filter]
    exact List.filter_congr fun e _ => window_comm t_start t_stop x_min x_max e
  rw [hes2]
  have hmapne : (es.filter (inOriginWindow t_start t_stop x_min x_max)).map Prod.fst ≠ [] :=
    fun h => hne (List.map_eq_nil_iff.mp h)
  rw [if_neg (by simpa using hmapne)]
  rw [npWhere_map (es.filter (inOriginWindow t_start t_stop x_min x_max)) Prod.fst
      (fun v => decide (v =
        amin ((es.filter (inOriginWindow t_start t_stop x_min x_max)).map Prod.fst))),
    npTake_map (es.filter (inOriginWindow t_start t_stop x_min x_max)) Prod.fst
      (fun e => decide (e.1 =
        amin ((es.filter (inOriginWindow t_start t_stop x_min x_max)).map Prod.fst))),
    npTake_map (es.filter (inOriginWindow t_start t_stop x_min x_max)) Prod.snd
      (fun e => decide (e.1 =
        amin ((es.filter (inOriginWindow t_start t_stop x_min x_max)).map Prod.fst)))]
  rfl

/-- C3 (confirmed): the origin query returns exactly the raster events
whose time is strictly inside the time window and whose coordinate is
inside the optional bounds, restricted to those whose time equals the
minimum time of that windowed subset — all tied events and their
coordinates, never a single pick.  Proved for parallel raster arrays and
a nonempty windowed subset (on an empty one `np.amin` raises, modelled
by `none`). -/
theorem c3_find_spike_origin (times xpos : List ℚ) (t_start t_stop : ℚ)
    (x_min x_max : Option ℚ) (hlen : times.length = xpos.length)
    (hne : (times.zip xpos).filter (inOriginWindow t_start t_stop x_min x_max) ≠ []) :
    find_spike_origin times xpos t_start t_stop x_min x_max =
      some ((find_spike_originSpec times xpos t_start t_stop x_min x_max).map Prod.fst,
        (find_spike_originSpec times xpos t_start t_stop x_min x_max).map Prod.snd) := by
  have hfst : (times.zip xpos).map Prod.fst = times :=
    List.map_fst_zip times xpos (le_of_eq hlen)
  have hsnd : (times.zip xpos).map Prod.snd = xpos :=
    List.map_snd_zip times xpos (le_of_eq hlen.symm)
  have hpipe := originCore_pipeline (times.zip xpos) t_start t_stop x_min x_max hne
  rw [hfst, hsnd] at hpipe
  simpa [find_spike_originSpec] using hpipe

set_option maxRecDepth 16000 in
/-- C3 witness: the origin query evaluated on the raster
`times = [1, 3]`, `xpos = [5, 6]` over the full window. -/
theorem c3_find_spike_origin_witness :
    find_spike_origin [1, 3] [5, 6] 0 10 none none =
      some ((find_spike_originSpec [1, 3] [5, 6] 0 10 none none).map Prod.fst,
        (find_spike_originSpec [1, 3] [5, 6] 0 10 none none).map Prod.snd) :=
  c3_find_spike_origin [1, 3] [5, 6] 0 10 none none rfl (by with_unfolding_all decide)

end NRV
